import Mathlib

/-!
Shallow embedding of the core audio pipeline of SayMySubtitles
(`SayMySubtitles.app/Contents/Resources/app.py`), with proofs settling the
specification claims about it.

Modelling conventions:
* External process invocations (`ffmpeg`, `say`) are oracles passed in as
  arguments: an environment maps a command (or an encoder attempt, or a
  synthesized text) to the `ProcResult` / measured value the external tool
  would produce.  The embedding never runs code.
* Millisecond durations are `ℤ`; tempo factors are `ℚ`.  The only floating
  point operations the source's tempo loop performs are comparison against
  the literals `2.0` / `0.5` and division by `2.0` / `0.5`; both literals
  and both divisions are exact in binary floating point, so the `ℚ` model
  coincides with the float computation step by step.
* The `while` loop of the tempo-chain decomposition (app.py lines 224-230)
  is embedded step-indexed (`tempoStepsFuel`): `none` means the loop has
  not finished within the given iteration budget, so termination is a
  theorem, not an assumption.
-/

namespace SayMySubtitles

/-- Path of the bundled transcoder binary (`which_ffmpeg`, app.py line 86);
the concrete path is irrelevant to every claim, only its occurrence in the
command lines matters. -/
def FFMPEG : String := "ffmpeg"

/-- Path of the speech synthesizer (`which_say`, app.py lines 82-84). -/
def SAY : String := "/usr/bin/say"

/-- Fixed speaking rate (app.py line 24). -/
def RATE_WPM : Nat := 200

/-- Decoded result of one external process invocation
(`subprocess.run` with captured, decoded stdout/stderr; app.py lines 52-62). -/
structure ProcResult where
  returncode : ℤ
  stdout : String
  stderr : String
deriving DecidableEq

/-- The failure text `run` raises on a non-zero exit (app.py lines 64-67);
`str(e)` of the raised `RuntimeError` is exactly this string. -/
def details (cmd : List String) (out err : String) : String :=
  "Command failed:\n$ " ++ String.intercalate " " cmd ++
    "\n\nSTDOUT:\n" ++ out ++ "\n\nSTDERR:\n" ++ err

/-- `run(cmd)` (app.py lines 45-72): raises (models as `Except.error`) with
the `details` text iff the process exits non-zero, otherwise returns the
completed process. -/
def run_model (cmd : List String) (p : ProcResult) : Except String ProcResult :=
  if p.returncode ≠ 0 then Except.error (details cmd p.stdout p.stderr)
  else Except.ok p

/-- Python's substring test `needle in hay`. -/
def strContains (hay needle : String) : Bool :=
  hay.toList.tails.any (fun t => needle.toList.isPrefixOf t)

/-! ## Tempo-chain decomposition (`time_stretch_to_duration.stage`, app.py 221-231)

The source loop, with `r` initialized to the factor `f`:
```
while r > 2.0 or r < 0.5:
    if r > 2.0: steps.append(2.0); r /= 2.0
    else:       steps.append(0.5); r /= 0.5
steps.append(r)
```
-/

/-- Step-indexed embedding of the loop above followed by the final
`steps.append(r)`: `tempoStepsFuel n r = some steps` when the loop ends
within `n` iterations, `none` otherwise. -/
def tempoStepsFuel : ℕ → ℚ → Option (List ℚ)
  | 0, _ => none
  | n + 1, r =>
    if 2 < r then (tempoStepsFuel n (r / 2)).map (List.cons 2)
    else if r < 1 / 2 then (tempoStepsFuel n (r / (1 / 2))).map (List.cons (1 / 2))
    else some [r]

/-- Termination measure for the loop: roughly the magnitude of `r` (when
`r ≥ 1`, the number of halvings is bounded by `⌈r⌉`) or of `1/r` (when
`r < 1`, the number of doublings is bounded by `⌈1/r⌉`). -/
def tmeasure (r : ℚ) : ℕ :=
  if 1 ≤ r then (⌈r⌉).toNat else (⌈1 / r⌉).toNat

/-- The tempo chain the source computes for factor `r`: the loop run with a
provably sufficient iteration budget (see `tempoStepsFuel_tmeasure`).
The `[r]` default is never reached for `0 < r`. -/
def tempoSteps (r : ℚ) : List ℚ :=
  (tempoStepsFuel (tmeasure r + 1) r).getD [r]

/-- The overall speed factor (app.py line 219):
`factor = (target_ms / 1000.0) / (cur_ms / 1000.0)`. -/
def factorOf (target_ms cur_ms : ℤ) : ℚ :=
  ((target_ms : ℚ) / 1000) / ((cur_ms : ℚ) / 1000)

/-! ## Duration fitter (`time_stretch_to_duration`, app.py 202-238) -/

/-- Observable output of the duration fitter: either a generated silence of
the given millisecond length (`anullsrc` branches), or the tempo chain
applied to the input followed by the hard trim `-t target_ms/1000`.
The recorded duration of the `stretched` case follows the spec's model of
the external trim stage (§4.1 step 6: the output is hard-clamped to exactly
the target). -/
inductive FitResult where
  | silence (durMs : ℚ)
  | stretched (steps : List ℚ) (durMs : ℚ)
deriving DecidableEq

/-- Millisecond duration of the fitter's output clip. -/
def FitResult.durMs : FitResult → ℚ
  | .silence d => d
  | .stretched _ d => d

/-- `time_stretch_to_duration` (app.py 202-238).  `probe_ms` is the result
of measuring the input clip (`AudioSegment.from_wav`/`len`), `none` when
that probing raises (the source's `except` sets `cur_ms = 0`).
Branch 1 (target ≤ 0): silence of `max(target_ms/1000.0, 0.001)` seconds.
Branch 2 (cur ≤ 0): silence of `target_ms/1000.0` seconds.
Otherwise: the tempo chain for `factorOf target cur`, hard-trimmed to the
target. -/
def time_stretch_to_duration (probe_ms : Option ℤ) (target_ms : ℤ) : FitResult :=
  if target_ms ≤ 0 then
    FitResult.silence (1000 * max ((target_ms : ℚ) / 1000) (1 / 1000))
  else
    let cur_ms := probe_ms.getD 0
    if cur_ms ≤ 0 then
      FitResult.silence (1000 * ((target_ms : ℚ) / 1000))
    else
      FitResult.stretched (tempoSteps (factorOf target_ms cur_ms)) ((target_ms : ℚ))

/-! ## Audio verifier (`verify_audio`, app.py 198-200)

The source body is a single transcoder invocation:
`run([FFMPEG, "-v", "error", "-i", wav_path, "-f", "null", "-"])`
followed by a log line.  The environment record below carries, besides the
decode invocation's result, the on-disk facts (existence, byte size, parsed
duration) that the specification says the verifier checks — so that the
claims about those checks can be stated; the embedded function, like the
source, reads none of them. -/

/-- State of the clip handed to `verify_audio`, as an oracle. -/
structure VerifyEnv where
  path : String
  file_exists : Bool
  sizeBytes : ℕ
  durationMs : ℤ
  /-- Result of `ffmpeg -v error -i path -f null -` on this clip. -/
  decode : ProcResult
deriving DecidableEq

/-- `verify_audio` (app.py 198-200): run the decode invocation through
`run`, propagating its error; nothing else is inspected. -/
def verify_audio (env : VerifyEnv) : Except String Unit :=
  (run_model [FFMPEG, "-v", "error", "-i", env.path, "-f", "null", "-"] env.decode).map
    (fun _ => ())

/-! ## Cue synthesizer (`mac_say_to_aiff`, app.py 173-193) -/

/-- Python truthiness of the `voice` argument (`if use_voice and voice`):
`None` and the empty string are falsy. -/
def voiceTruthy : Option String → Bool
  | none => false
  | some v => v ≠ ""

/-- `build_cmd` (app.py 175-181). -/
def build_cmd (say_path out_path : String) (voice : Option String) (use_voice : Bool)
    (text : String) : List String :=
  [say_path, "-o", out_path]
    ++ (if use_voice && voiceTruthy voice then ["-v", voice.getD ""] else [])
    ++ ["-r", toString RATE_WPM]
    ++ [text]

/-- The source's invalid-voice classifier (app.py line 187):
`"Voice" in msg or "voice" in msg or "Invalid" in msg` over `str(e)`. -/
def msg_matches_voice (msg : String) : Bool :=
  strContains msg "Voice" || strContains msg "voice" || strContains msg "Invalid"

/-- Outcome of `mac_say_to_aiff`: the list of `say` commands actually
invoked, in order, and the propagated failure text if the call raises. -/
inductive SayOutcome where
  | ok (cmds : List (List String))
  | failed (cmds : List (List String)) (err : String)
deriving DecidableEq

/-- `mac_say_to_aiff` (app.py 173-193).  `exec` is the oracle giving each
command's process result.  First invocation with the voice; on failure
whose text matches the invalid-voice classifier, exactly one retry without
`-v`; any other failure propagates immediately; a failing retry also
propagates. -/
def mac_say_to_aiff (exec : List String → ProcResult) (out_path : String)
    (voice : Option String) (text : String) : SayOutcome :=
  let cmd1 := build_cmd SAY out_path voice true text
  let r1 := exec cmd1
  if r1.returncode = 0 then SayOutcome.ok [cmd1]
  else
    let msg := details cmd1 r1.stdout r1.stderr
    if msg_matches_voice msg then
      let cmd2 := build_cmd SAY out_path voice false text
      let r2 := exec cmd2
      if r2.returncode = 0 then SayOutcome.ok [cmd1, cmd2]
      else SayOutcome.failed [cmd1, cmd2] (details cmd2 r2.stdout r2.stderr)
    else SayOutcome.failed [cmd1] msg

/-! ## Timeline compositor (`build_timed_track_from_srt`, app.py 240-281) -/

/-- One subtitle cue, times already converted to milliseconds by `ms`
(app.py 170-171). -/
structure Cue where
  startMs : ℤ
  endMs : ℤ
  content : String
deriving DecidableEq

/-- Maximal whitespace-free runs of a character list, accumulator-style
(the helper behind `compact`). -/
def compact_words : List Char → List Char → List (List Char)
  | [], acc => if acc = [] then [] else [acc.reverse]
  | c :: cs, acc =>
    if c.isWhitespace then
      if acc = [] then compact_words cs [] else acc.reverse :: compact_words cs []
    else compact_words cs (c :: acc)

/-- `compact` (app.py 167-168): `re.sub(r"\s+", " ", text).strip()` —
collapse every whitespace run to one space and strip both ends; equivalent
to joining the whitespace-separated words with single spaces. -/
def compact (s : String) : String :=
  String.mk (List.intercalate [' '] (compact_words s.data []))

/-- The fit target the compositor computes for a cue (app.py 272-273):
`target = ms(cue.end - cue.start); target = max(target, 120)`. -/
def cue_target (cue : Cue) : ℤ :=
  max (cue.endMs - cue.startMs) 120

/-- Per-cue body of the compositor loop (app.py 255-279), happy path.
`probe` maps a compacted cue text to the measured duration of its
synthesized, normalized wav (`none` when measuring raises).  Empty
compacted text: the cue is skipped (`continue`).  Otherwise the cue
contributes the fitted clip overlaid at `ms(cue.start)`.  Synthesis,
normalization and the two `verify_audio` calls are modelled as succeeding;
their failure propagation is covered by the `mac_say_to_aiff` and
`verify_audio` embeddings. -/
def process_cue (probe : String → Option ℤ) (cue : Cue) : Option (ℤ × FitResult) :=
  let text := compact cue.content
  if text = "" then none
  else some (cue.startMs, time_stretch_to_duration (probe text) (cue_target cue))

/-- The composed timeline: a buffer silent at creation
(`AudioSegment.silent(duration=total_ms)`, app.py 252) of fixed length
`lengthMs`, with the fitted clips additively overlaid at the listed
absolute offsets (`timeline.overlay(seg, position=start)`, app.py 279,
which preserves the buffer's length). -/
structure TimelineModel where
  lengthMs : ℤ
  overlays : List (ℤ × FitResult)
deriving DecidableEq

/-- `build_timed_track_from_srt` (app.py 240-281): reject an empty cue
list (`ValueError("No subtitles found in SRT.")`, line 246); otherwise the
silent base is sized `ms(subs[-1].end) + 500` (line 251) and each cue is
processed in order by `process_cue`. -/
def build_timed_track_from_srt (probe : String → Option ℤ) (subs : List Cue) :
    Except String TimelineModel :=
  match subs with
  | [] => Except.error "No subtitles found in SRT."
  | c :: cs =>
    Except.ok ⟨((c :: cs).getLast (List.cons_ne_nil c cs)).endMs + 500,
               (c :: cs).filterMap (process_cue probe)⟩

/-! ## Mux encoder selection (`pick_mux_encoders`, app.py 283-294) -/

/-- One line of `ffmpeg -encoders` output matched against the source regex
`^\s*A\.*\s+aac\s` (re.MULTILINE): optional leading whitespace, `A`, any
number of dots, at least one whitespace, `aac`, one whitespace. -/
def ffmpeg_aac_line (l : List Char) : Bool :=
  match l.dropWhile Char.isWhitespace with
  | 'A' :: rest =>
    match rest.dropWhile (fun c => c = '.') with
    | c :: _ =>
      c.isWhitespace &&
        (let r2 := (rest.dropWhile (fun c => c = '.')).dropWhile Char.isWhitespace
         ['a', 'a', 'c'].isPrefixOf r2 &&
           match r2.drop 3 with
           | c2 :: _ => c2.isWhitespace
           | [] => false)
    | [] => false
  | _ => false

/-- `re.search(r'^\s*A\.*\s+aac\s', enc, re.MULTILINE) is not None`
(app.py line 287): some line of the dump matches. -/
def has_aac_line (enc : String) : Bool :=
  (enc.splitOn "\n").any (fun s => ffmpeg_aac_line s.toList)

/-- `pick_mux_encoders` (app.py 283-294).  `discovery` is the oracle for
`run([FFMPEG, "-hide_banner", "-encoders"]).stdout`: `none` models that
invocation raising (the `except` branch returning the fixed list). -/
def pick_mux_encoders (discovery : Option String) : List (String × List String) :=
  match discovery with
  | none => [("aac_at", []), ("aac", []), ("aac", ["-strict", "-2"])]
  | some enc =>
    (if strContains enc " aac_at " then [("aac_at", ([] : List String))] else [])
      ++ (if has_aac_line enc then [("aac", ([] : List String))] else [])
      ++ [("aac", ["-strict", "-2"])]

/-! ## Mux fallback engine (`replace_video_audio`, app.py 296-320) -/

/-- The mux command for one encoder attempt (app.py 302-312): the fixed
argument list, with `extra` spliced in before the output path when
non-empty (`cmd = cmd[:-1] + extra + [cmd[-1]]`). -/
def mux_cmd (in_video in_audio out_video enc : String) (extra : List String) :
    List String :=
  let cmd := [FFMPEG, "-y", "-i", in_video, "-i", in_audio,
              "-map", "0:v:0", "-map", "1:a:0",
              "-c:v", "copy", "-c:a", enc, "-b:a", "192k",
              "-ar", "48000", "-ac", "2",
              "-movflags", "+faststart",
              "-shortest", out_video]
  if extra = [] then cmd else cmd.dropLast ++ extra ++ [out_video]

/-- Observable outcome of `replace_video_audio`: success with the attempt
that produced the output; a raised error; or the silent fall-through the
source performs when the loop ends with `last_err` still `None` (only
reachable on an empty attempt list). -/
inductive MuxOutcome where
  | success (enc : String) (extra : List String)
  | raised (err : String)
  | fellThrough
deriving DecidableEq

/-- The encoder loop of `replace_video_audio` (app.py 299-320), with the
accumulated `last_err`.  `invoke` is the oracle for each attempt's mux
invocation.  On the first zero exit the function returns; otherwise
`last_err` is replaced and the next attempt tried; after the loop,
`last_err` is raised when set. -/
def mux_attempt_loop (invoke : String → List String → ProcResult)
    (in_video in_audio out_video : String) :
    List (String × List String) → Option String → MuxOutcome
  | [], none => MuxOutcome.fellThrough
  | [], some e => MuxOutcome.raised e
  | (enc, extra) :: rest, _lastErr =>
    let r := invoke enc extra
    if r.returncode = 0 then MuxOutcome.success enc extra
    else
      mux_attempt_loop invoke in_video in_audio out_video rest
        (some (details (mux_cmd in_video in_audio out_video enc extra) r.stdout r.stderr))

/-- `replace_video_audio` (app.py 296-320). -/
def replace_video_audio (invoke : String → List String → ProcResult)
    (discovery : Option String) (in_video in_audio out_video : String) : MuxOutcome :=
  mux_attempt_loop invoke in_video in_audio out_video (pick_mux_encoders discovery) none

/-! ## Lemmas about the tempo-chain loop -/

/-- Whenever the loop finishes, every emitted multiplier lies in
`[0.5, 2.0]` and the product of the emitted list is exactly the starting
factor. -/
theorem tempoStepsFuel_sound :
    ∀ (n : ℕ) (r : ℚ) (l : List ℚ), tempoStepsFuel n r = some l →
      (∀ x ∈ l, 1 / 2 ≤ x ∧ x ≤ 2) ∧ l.prod = r := by
  intro n
  induction n with
  | zero => intro r l h; simp [tempoStepsFuel] at h
  | succ n ih =>
    intro r l h
    rw [tempoStepsFuel] at h
    by_cases h2 : 2 < r
    · rw [if_pos h2, Option.map_eq_some'] at h
      obtain ⟨l', hl', rfl⟩ := h
      obtain ⟨hb, hp⟩ := ih (r / 2) l' hl'
      refine ⟨?_, ?_⟩
      · intro x hx
        rcases List.mem_cons.mp hx with rfl | hx
        · norm_num
        · exact hb x hx
      · rw [List.prod_cons, hp]; ring
    · rw [if_neg h2] at h
      by_cases h5 : r < 1 / 2
      · rw [if_pos h5, Option.map_eq_some'] at h
        obtain ⟨l', hl', rfl⟩ := h
        obtain ⟨hb, hp⟩ := ih (r / (1 / 2)) l' hl'
        refine ⟨?_, ?_⟩
        · intro x hx
          rcases List.mem_cons.mp hx with rfl | hx
          · norm_num
          · exact hb x hx
        · rw [List.prod_cons, hp]; ring
      · rw [if_neg h5, Option.some_inj] at h
        subst h
        refine ⟨?_, List.prod_singleton⟩
        intro x hx
        rw [List.mem_singleton] at hx
        subst hx
        exact ⟨le_of_not_lt h5, le_of_not_lt h2⟩

/-- Halving a value above `2` strictly decreases its (positive) ceiling. -/
theorem ceil_half_lt {s : ℚ} (hs : 2 < s) : ⌈s / 2⌉ < ⌈s⌉ ∧ 0 < ⌈s / 2⌉ := by
  constructor
  · have h1 : s / 2 ≤ s - 1 := by linarith
    calc ⌈s / 2⌉ ≤ ⌈s - 1⌉ := Int.ceil_le_ceil h1
      _ = ⌈s⌉ - 1 := Int.ceil_sub_one s
      _ < ⌈s⌉ := by omega
  · exact Int.ceil_pos.mpr (by linarith)

/-- The loop's measure is positive on positive factors. -/
theorem tmeasure_pos {r : ℚ} (hr : 0 < r) : 1 ≤ tmeasure r := by
  unfold tmeasure
  by_cases h1 : 1 ≤ r
  · rw [if_pos h1]
    have : 0 < ⌈r⌉ := Int.ceil_pos.mpr hr
    omega
  · rw [if_neg h1]
    have : 0 < ⌈1 / r⌉ := Int.ceil_pos.mpr (by positivity)
    omega

/-- A halving step (taken when `2 < r`) strictly decreases the measure. -/
theorem tmeasure_halve {r : ℚ} (h2 : 2 < r) : tmeasure (r / 2) < tmeasure r := by
  have h1r : (1 : ℚ) ≤ r := by linarith
  have h1h : (1 : ℚ) ≤ r / 2 := by linarith
  unfold tmeasure
  rw [if_pos h1r, if_pos h1h]
  obtain ⟨hlt, hpos⟩ := ceil_half_lt h2
  omega

/-- A doubling step (taken when `0 < r < 1/2`) strictly decreases the
measure. -/
theorem tmeasure_double {r : ℚ} (hr : 0 < r) (h5 : r < 1 / 2) :
    tmeasure (r / (1 / 2)) < tmeasure r := by
  have e : r / (1 / 2) = 2 * r := by ring
  have hn1 : ¬(1 : ℚ) ≤ r := by linarith
  have hn2 : ¬(1 : ℚ) ≤ r / (1 / 2) := by rw [e]; linarith
  unfold tmeasure
  rw [if_neg hn1, if_neg hn2]
  have hinv : 2 < 1 / r := by
    rw [lt_div_iff₀ hr]; linarith
  have e2 : 1 / (r / (1 / 2)) = (1 / r) / 2 := by
    rw [e]; ring
  rw [e2]
  obtain ⟨hlt, hpos⟩ := ceil_half_lt hinv
  omega

/-- `Option.map` preserves `isSome` (stated for `Option.map` itself, as
used in `tempoStepsFuel`). -/
theorem isSome_map_list (f : List ℚ → List ℚ) (o : Option (List ℚ)) :
    (o.map f).isSome = o.isSome := by
  cases o <;> rfl

/-- Termination of the tempo loop: a budget above the measure suffices. -/
theorem tempoStepsFuel_tmeasure :
    ∀ (n : ℕ) (r : ℚ), 0 < r → tmeasure r ≤ n → (tempoStepsFuel (n + 1) r).isSome := by
  intro n
  induction n with
  | zero =>
    intro r hr hm
    have := tmeasure_pos hr
    omega
  | succ n ih =>
    intro r hr hm
    rw [tempoStepsFuel]
    by_cases h2 : 2 < r
    · rw [if_pos h2, isSome_map_list]
      exact ih (r / 2) (by positivity) (by have := tmeasure_halve h2; omega)
    · rw [if_neg h2]
      by_cases h5 : r < 1 / 2
      · rw [if_pos h5, isSome_map_list]
        have hpos : 0 < r / (1 / 2) := by positivity
        exact ih (r / (1 / 2)) hpos (by have := tmeasure_double hr h5; omega)
      · rw [if_neg h5]; rfl

/-- With the budget `tempoSteps` uses, the loop does finish, and
`tempoSteps` is its result. -/
theorem tempoSteps_eq {r : ℚ} (hr : 0 < r) :
    tempoStepsFuel (tmeasure r + 1) r = some (tempoSteps r) := by
  have h := tempoStepsFuel_tmeasure (tmeasure r) r hr le_rfl
  obtain ⟨l, hl⟩ := Option.isSome_iff_exists.mp h
  rw [tempoSteps, hl]
  rfl

/-- Range and product of the chain `tempoSteps` computes for a positive
factor. -/
theorem tempoSteps_sound {r : ℚ} (hr : 0 < r) :
    (∀ x ∈ tempoSteps r, 1 / 2 ≤ x ∧ x ≤ 2) ∧ (tempoSteps r).prod = r :=
  tempoStepsFuel_sound (tmeasure r + 1) r (tempoSteps r) (tempoSteps_eq hr)

/-- The chain for the identity factor is the single identity step. -/
theorem tempoSteps_one : tempoSteps 1 = [1] := by
  simp only [tempoSteps, tmeasure]
  norm_num [tempoStepsFuel]

/-! ## Claim theorems -/

/-- Claim C1: for every target duration `T > 0` and current duration
`C > 0`, the tempo-chain decomposition of `factor = T/C` emits a sequence
of multipliers in which every element lies in the closed interval
`[0.5, 2.0]` and the product of all elements equals the factor (here even
exactly, so in particular within floating-point tolerance). -/
theorem tempo_chain_bounds_and_product (T C : ℤ) (hT : 0 < T) (hC : 0 < C) :
    (∀ x ∈ tempoSteps (factorOf T C), 1 / 2 ≤ x ∧ x ≤ 2) ∧
      (tempoSteps (factorOf T C)).prod = factorOf T C := by
  have hT' : (0 : ℚ) < (T : ℚ) := by exact_mod_cast hT
  have hC' : (0 : ℚ) < (C : ℚ) := by exact_mod_cast hC
  have hf : 0 < factorOf T C :=
    div_pos (div_pos hT' (by norm_num)) (div_pos hC' (by norm_num))
  exact tempoSteps_sound hf

/-- Witness for C1 at `T = 3000 ms`, `C = 1000 ms` (factor 3). -/
theorem tempo_chain_bounds_and_product_witness :
    (∀ x ∈ tempoSteps (factorOf 3000 1000), 1 / 2 ≤ x ∧ x ≤ 2) ∧
      (tempoSteps (factorOf 3000 1000)).prod = factorOf 3000 1000 :=
  tempo_chain_bounds_and_product 3000 1000 (by norm_num) (by norm_num)

/-- Claim C9: for every strictly positive factor the decomposition loop
terminates — some finite iteration budget makes the step-indexed loop
return a result — so the decomposition is total on positive factors. -/
theorem tempo_loop_terminates (r : ℚ) (hr : 0 < r) :
    ∃ n l, tempoStepsFuel n r = some l :=
  ⟨tmeasure r + 1, tempoSteps r, tempoSteps_eq hr⟩

/-- Witness for C9 at factor `5/2`. -/
theorem tempo_loop_terminates_witness :
    ∃ n l, tempoStepsFuel n (5 / 2) = some l :=
  tempo_loop_terminates (5 / 2) (by norm_num)

/-- Claim C8: fitting a clip to its own measured duration (factor `1.0`)
yields a tempo chain of length at most 1 — exactly the single identity
step — and the emitted output's duration equals the input's duration. -/
theorem fit_identity (C : ℤ) (hC : 0 < C) :
    time_stretch_to_duration (some C) C = FitResult.stretched [1] ((C : ℤ) : ℚ) := by
  have hC' : (0 : ℚ) < (C : ℚ) := by exact_mod_cast hC
  have hfac : factorOf C C = 1 := by
    unfold factorOf
    exact div_self (ne_of_gt (div_pos hC' (by norm_num)))
  unfold time_stretch_to_duration
  rw [if_neg (by omega : ¬C ≤ 0)]
  simp only [Option.getD_some]
  rw [if_neg (by omega : ¬C ≤ 0), hfac, tempoSteps_one]

/-- Witness for C8 at a measured duration of `777 ms`. -/
theorem fit_identity_witness :
    time_stretch_to_duration (some 777) 777 = FitResult.stretched [1] ((777 : ℤ) : ℚ) :=
  fit_identity 777 (by norm_num)

/-- Claim C5: for every target duration `T ≤ 0`, and for every positive
target whose input clip measures a current duration `≤ 0` (including when
probing fails, which the source maps to `cur_ms = 0`), the duration fitter
outputs silence of length `max(T, 1 ms)` and never raises (the embedding
is total and takes one of the two silence branches). -/
theorem fit_degenerate (probe : Option ℤ) (T : ℤ) (h : T ≤ 0 ∨ probe.getD 0 ≤ 0) :
    time_stretch_to_duration probe T = FitResult.silence (max ((T : ℤ) : ℚ) 1) := by
  unfold time_stretch_to_duration
  by_cases hT : T ≤ 0
  · rw [if_pos hT]
    have hT' : ((T : ℤ) : ℚ) ≤ 0 := by exact_mod_cast hT
    have h1 : ((T : ℤ) : ℚ) / 1000 ≤ 1 / 1000 := by
      have : ((T : ℤ) : ℚ) / 1000 ≤ 0 := div_nonpos_of_nonpos_of_nonneg hT' (by norm_num)
      linarith
    rw [max_eq_right h1, max_eq_right (hT'.trans (by norm_num))]
    norm_num
  · have hcur : probe.getD 0 ≤ 0 := h.resolve_left hT
    rw [if_neg hT]
    simp only []
    rw [if_pos hcur]
    have hT1 : (1 : ℚ) ≤ ((T : ℤ) : ℚ) := by exact_mod_cast (by omega : (1 : ℤ) ≤ T)
    rw [max_eq_left hT1]
    congr 1
    ring

/-- Witness for C5 at `T = 0` with a failed probe: the output is 1 ms of
silence. -/
theorem fit_degenerate_witness :
    time_stretch_to_duration none 0 = FitResult.silence (max ((0 : ℤ) : ℚ) 1) :=
  fit_degenerate none 0 (Or.inl (by norm_num))

/-- Counterexample to C4 as stated: for the 50 ms cue `[0, 50)` with text
`"hi"`, the compositor's fit target (app.py 272-273) is `120`, not
`end − start = 50`, and the fitted clip's duration is `120 ≠ 50`. -/
theorem cue_fit_floor_counterexample :
    cue_target ⟨0, 50, "hi"⟩ = 120 ∧ (120 : ℤ) ≠ 50 ∧
      (time_stretch_to_duration (some 400) (cue_target ⟨0, 50, "hi"⟩)).durMs ≠ 50 := by
  have h120 : cue_target ⟨0, 50, "hi"⟩ = 120 := by
    unfold cue_target
    norm_num
  refine ⟨h120, by norm_num, ?_⟩
  rw [h120]
  unfold time_stretch_to_duration
  rw [if_neg (by norm_num : ¬(120 : ℤ) ≤ 0)]
  simp only [Option.getD_some]
  rw [if_neg (by norm_num : ¬(400 : ℤ) ≤ 0)]
  simp only [FitResult.durMs]
  norm_num

/-- Claim C4 (amended): for every cue with non-empty collapsed-whitespace
text, the compositor fits the cue's synthesized clip to a target duration
of `max(end − start, 120 ms)` — the 120 ms audibility floor of app.py
line 273 — and the fitted clip's duration equals that target (within trim
precision). -/
theorem cue_fit_target_floor (probe : String → Option ℤ) (cue : Cue)
    (h : compact cue.content ≠ "") :
    process_cue probe cue =
      some (cue.startMs,
        time_stretch_to_duration (probe (compact cue.content))
          (max (cue.endMs - cue.startMs) 120)) ∧
      (time_stretch_to_duration (probe (compact cue.content))
          (max (cue.endMs - cue.startMs) 120)).durMs =
        ((max (cue.endMs - cue.startMs) 120 : ℤ) : ℚ) := by
  constructor
  · unfold process_cue
    rw [if_neg h]
    rfl
  · have htpos : (0 : ℤ) < max (cue.endMs - cue.startMs) 120 :=
      lt_of_lt_of_le (by norm_num) (le_max_right _ _)
    unfold time_stretch_to_duration
    rw [if_neg (by omega : ¬max (cue.endMs - cue.startMs) 120 ≤ 0)]
    by_cases hc : (probe (compact cue.content)).getD 0 ≤ 0
    · simp only []
      rw [if_pos hc]
      simp only [FitResult.durMs]
      ring
    · simp only []
      rw [if_neg hc]
      simp only [FitResult.durMs]

/-- Witness for the amended C4 at the counterexample's cue. -/
theorem cue_fit_target_floor_witness :
    process_cue (fun _ => some 400) ⟨0, 50, "hi"⟩ =
      some ((0 : ℤ),
        time_stretch_to_duration (some 400) (max ((50 : ℤ) - 0) 120)) ∧
      (time_stretch_to_duration (some 400) (max ((50 : ℤ) - 0) 120)).durMs =
        ((max ((50 : ℤ) - 0) 120 : ℤ) : ℚ) :=
  cue_fit_target_floor (fun _ => some 400) ⟨0, 50, "hi"⟩
    (by rw [show compact "hi" = "hi" from rfl]; decide)

/-- The compositor loop keeps exactly the non-empty-text cues, each
contributing its fitted clip at its own start offset. -/
theorem filterMap_process_cue (probe : String → Option ℤ) (l : List Cue) :
    l.filterMap (process_cue probe) =
      (l.filter (fun c => !(compact c.content == ""))).map
        (fun c => (c.startMs,
          time_stretch_to_duration (probe (compact c.content)) (cue_target c))) := by
  induction l with
  | nil => rfl
  | cons c cs ih =>
    by_cases h : compact c.content = ""
    · simp [List.filterMap_cons, List.filter_cons, process_cue, h, ih]
    · simp [List.filterMap_cons, List.filter_cons, process_cue, h, ih]

/-- Claim C7: for every non-empty cue sequence the composed timeline has
fixed total length `(last cue's end) + 500 ms` (the base buffer is created
silent, app.py 252, and `overlay` preserves its length), and cues whose
collapsed-whitespace text is empty contribute no clip and do not alter the
final timeline length or the placement of the other cues — the overlay
list is exactly the per-cue entries of the non-empty-text cues. -/
theorem timeline_shape (probe : String → Option ℤ) (subs : List Cue) (h : subs ≠ []) :
    build_timed_track_from_srt probe subs =
      Except.ok ⟨(subs.getLast h).endMs + 500,
        (subs.filter (fun c => !(compact c.content == ""))).map
          (fun c => (c.startMs,
            time_stretch_to_duration (probe (compact c.content)) (cue_target c)))⟩ := by
  match subs with
  | [] => exact absurd rfl h
  | c :: cs =>
    have e : build_timed_track_from_srt probe (c :: cs) =
        Except.ok ⟨((c :: cs).getLast (List.cons_ne_nil c cs)).endMs + 500,
          (c :: cs).filterMap (process_cue probe)⟩ := rfl
    rw [e, filterMap_process_cue]

/-- Witness for C7: two cues, the second with whitespace-only text; the
timeline is 2500 ms long and carries exactly one overlay, at offset 0. -/
theorem timeline_shape_witness :
    build_timed_track_from_srt (fun _ => none)
        [⟨0, 1000, "a"⟩, ⟨1200, 2000, " "⟩] =
      Except.ok ⟨2500,
        [((0 : ℤ), time_stretch_to_duration none (cue_target ⟨0, 1000, "a"⟩))]⟩ := by
  have h := timeline_shape (fun _ => none) [⟨0, 1000, "a"⟩, ⟨1200, 2000, " "⟩]
    (by simp)
  rw [h]
  simp only [List.filter_cons, List.filter_nil,
    show compact "a" = "a" from rfl, show compact " " = "" from rfl]
  norm_num [List.getLast, cue_target]
  rw [if_neg (show ¬("a" : String) = "" by decide)]
  norm_num

/-- Counterexample to C2 as stated: a clip whose parsed duration is `0 ms`
(below any positive millisecond floor) passes verification whenever the
decode invocation exits zero — no too-short condition is raised — and a
missing resource and an existing 3-byte resource whose decodes fail
identically yield the *same* condition, so missing / too-small are not
distinct named conditions. -/
theorem verify_audio_counterexample :
    verify_audio ⟨"clip.wav", true, 100000, 0, ⟨0, "", ""⟩⟩ = Except.ok () ∧
      verify_audio ⟨"gone.wav", false, 0, 0, ⟨1, "", "boom"⟩⟩ =
        verify_audio ⟨"gone.wav", true, 3, 0, ⟨1, "", "boom"⟩⟩ :=
  ⟨rfl, rfl⟩

/-- Claim C2 (amended): the audio verifier performs a single check — it
invokes the transcoder to decode the clip — succeeding iff that invocation
exits zero; its result depends only on the clip's path and the decode
result (existence, byte size and parsed duration are never consulted), and
every failure raises the one `run` condition, whose text carries the path
via the command line and the transcoder's diagnostics. -/
theorem verify_audio_single_check (env : VerifyEnv) :
    (verify_audio env = Except.ok () ↔ env.decode.returncode = 0) ∧
      ∀ env' : VerifyEnv, env'.path = env.path → env'.decode = env.decode →
        verify_audio env' = verify_audio env := by
  constructor
  · unfold verify_audio run_model
    by_cases hc : env.decode.returncode = 0
    · simp [hc, Except.map]
    · simp [hc, Except.map]
  · intro env' hp hd
    unfold verify_audio
    rw [hp, hd]

/-- Witness for the amended C2: two environments equal in path and decode
result but differing in existence, size and duration verify identically. -/
theorem verify_audio_single_check_witness :
    verify_audio ⟨"n.wav", false, 0, 0, ⟨2, "x", "y"⟩⟩ =
      verify_audio ⟨"n.wav", true, 999, 500, ⟨2, "x", "y"⟩⟩ :=
  (verify_audio_single_check ⟨"n.wav", true, 999, 500, ⟨2, "x", "y"⟩⟩).2
    ⟨"n.wav", false, 0, 0, ⟨2, "x", "y"⟩⟩ rfl rfl

/-- Claim C6: when the first synthesis invocation fails and its failure
text matches the source's invalid/unknown-voice classifier, the
synthesizer retries exactly once with no voice specified (the retry
command carries no `-v` argument), the retry's own result — success or
failure — being final; a failure whose text does not match the classifier
is never retried and propagates immediately. -/
theorem mac_say_retry_policy (exec : List String → ProcResult) (out_path : String)
    (voice : Option String) (text : String)
    (hfail : (exec (build_cmd SAY out_path voice true text)).returncode ≠ 0) :
    (msg_matches_voice
        (details (build_cmd SAY out_path voice true text)
          (exec (build_cmd SAY out_path voice true text)).stdout
          (exec (build_cmd SAY out_path voice true text)).stderr) = true →
      build_cmd SAY out_path voice false text =
          [SAY, "-o", out_path, "-r", toString RATE_WPM, text] ∧
        mac_say_to_aiff exec out_path voice text =
          (if (exec (build_cmd SAY out_path voice false text)).returncode = 0 then
            SayOutcome.ok
              [build_cmd SAY out_path voice true text,
                build_cmd SAY out_path voice false text]
          else
            SayOutcome.failed
              [build_cmd SAY out_path voice true text,
                build_cmd SAY out_path voice false text]
              (details (build_cmd SAY out_path voice false text)
                (exec (build_cmd SAY out_path voice false text)).stdout
                (exec (build_cmd SAY out_path voice false text)).stderr))) ∧
      (msg_matches_voice
          (details (build_cmd SAY out_path voice true text)
            (exec (build_cmd SAY out_path voice true text)).stdout
            (exec (build_cmd SAY out_path voice true text)).stderr) = false →
        mac_say_to_aiff exec out_path voice text =
          SayOutcome.failed [build_cmd SAY out_path voice true text]
            (details (build_cmd SAY out_path voice true text)
              (exec (build_cmd SAY out_path voice true text)).stdout
              (exec (build_cmd SAY out_path voice true text)).stderr)) := by
  constructor
  · intro hm
    constructor
    · simp [build_cmd]
    · unfold mac_say_to_aiff
      rw [if_neg hfail, if_pos hm]
  · intro hm
    unfold mac_say_to_aiff
    rw [if_neg hfail, if_neg (by rw [hm]; exact Bool.false_ne_true)]

/-- Witness for C6: an oracle failing any 8-argument command (the voiced
one) with an `Invalid voice` diagnostic and succeeding otherwise makes the
synthesizer retry once, voicelessly, and succeed. -/
theorem mac_say_retry_policy_witness :
    mac_say_to_aiff
        (fun cmd => if cmd.length = 8 then ⟨1, "", "Invalid voice"⟩ else ⟨0, "", ""⟩)
        "o.aiff" (some "Bogus") "hi" =
      SayOutcome.ok
        [build_cmd SAY "o.aiff" (some "Bogus") true "hi",
          build_cmd SAY "o.aiff" (some "Bogus") false "hi"] := by
  have h :=
    ((mac_say_retry_policy
        (fun cmd => if cmd.length = 8 then ⟨1, "", "Invalid voice"⟩ else ⟨0, "", ""⟩)
        "o.aiff" (some "Bogus") "hi" (by decide)).1 (by rfl)).2
  rw [h, if_pos (by decide)]

/-- The mux loop returns the first attempt whose invocation exits zero,
whatever error is accumulated. -/
theorem mux_attempt_loop_first_success (invoke : String → List String → ProcResult)
    (iv ia ov : String) :
    ∀ (encs : List (String × List String)) (lastErr : Option String)
      (a : String × List String),
      encs.find? (fun p => (invoke p.1 p.2).returncode == 0) = some a →
      mux_attempt_loop invoke iv ia ov encs lastErr = MuxOutcome.success a.1 a.2 := by
  intro encs
  induction encs with
  | nil => intro lastErr a h; simp at h
  | cons p rest ih =>
    intro lastErr a h
    obtain ⟨enc, extra⟩ := p
    have e : mux_attempt_loop invoke iv ia ov ((enc, extra) :: rest) lastErr =
        (if (invoke enc extra).returncode = 0 then MuxOutcome.success enc extra
        else mux_attempt_loop invoke iv ia ov rest
          (some (details (mux_cmd iv ia ov enc extra)
            (invoke enc extra).stdout (invoke enc extra).stderr))) := rfl
    by_cases hp : (invoke enc extra).returncode = 0
    · rw [List.find?_cons_of_pos _ (by simpa using hp)] at h
      cases h
      rw [e, if_pos hp]
    · rw [List.find?_cons_of_neg _ (by simpa using hp)] at h
      rw [e, if_neg hp]
      exact ih _ a h

/-- When every attempt's invocation fails, the mux loop raises the error
of the last attempt in the list. -/
theorem mux_attempt_loop_all_fail (invoke : String → List String → ProcResult)
    (iv ia ov : String) :
    ∀ (encs : List (String × List String)) (b : String × List String),
      encs.getLast? = some b →
      (∀ p ∈ encs, (invoke p.1 p.2).returncode ≠ 0) →
      ∀ lastErr, mux_attempt_loop invoke iv ia ov encs lastErr =
        MuxOutcome.raised (details (mux_cmd iv ia ov b.1 b.2)
          (invoke b.1 b.2).stdout (invoke b.1 b.2).stderr) := by
  intro encs
  induction encs with
  | nil => intro b h; simp at h
  | cons p rest ih =>
    intro b hb hfail lastErr
    obtain ⟨enc, extra⟩ := p
    have e : mux_attempt_loop invoke iv ia ov ((enc, extra) :: rest) lastErr =
        (if (invoke enc extra).returncode = 0 then MuxOutcome.success enc extra
        else mux_attempt_loop invoke iv ia ov rest
          (some (details (mux_cmd iv ia ov enc extra)
            (invoke enc extra).stdout (invoke enc extra).stderr))) := rfl
    rw [e, if_neg (hfail (enc, extra) (List.mem_cons_self _ _))]
    cases rest with
    | nil =>
      simp only [List.getLast?_singleton, Option.some_inj] at hb
      subst hb
      rfl
    | cons q qs =>
      have hb' : (q :: qs).getLast? = some b := by
        rwa [List.getLast?_cons_cons] at hb
      exact ih b hb' (fun p hp => hfail p (List.mem_cons_of_mem _ hp)) _

/-- Claim C3 (amended): the mux fallback engine tries its encoder attempts
strictly in list order; the first attempt whose invocation exits zero is
the result — no probe of the produced output is performed — and the
remaining attempts are skipped; if every attempt's invocation fails, the
engine raises the *last* attempt's error (not an aggregate of all
failures). -/
theorem mux_fallback_behavior (invoke : String → List String → ProcResult)
    (discovery : Option String) (iv ia ov : String) :
    (∀ a, (pick_mux_encoders discovery).find?
        (fun p => (invoke p.1 p.2).returncode == 0) = some a →
      replace_video_audio invoke discovery iv ia ov = MuxOutcome.success a.1 a.2) ∧
    (∀ b, (pick_mux_encoders discovery).getLast? = some b →
      (∀ p ∈ pick_mux_encoders discovery, (invoke p.1 p.2).returncode ≠ 0) →
      replace_video_audio invoke discovery iv ia ov =
        MuxOutcome.raised (details (mux_cmd iv ia ov b.1 b.2)
          (invoke b.1 b.2).stdout (invoke b.1 b.2).stderr)) :=
  ⟨fun a h => mux_attempt_loop_first_success invoke iv ia ov _ none a h,
    fun b hb hf => mux_attempt_loop_all_fail invoke iv ia ov _ b hb hf none⟩

/-- Witness for the amended C3: with an oracle on which every invocation
succeeds, the engine returns the first attempt. -/
theorem mux_fallback_behavior_witness :
    replace_video_audio (fun _ _ => ⟨0, "", ""⟩) none "v.mp4" "n.wav" "o.mp4" =
      MuxOutcome.success "aac_at" [] :=
  (mux_fallback_behavior (fun _ _ => ⟨0, "", ""⟩) none "v.mp4" "n.wav" "o.mp4").1
    ("aac_at", []) (by rfl)

set_option maxRecDepth 8000 in
/-- Counterexample to C3 as stated: with every attempt failing (errors
`errA`, `errB`, `errC` for the three attempts), the engine raises exactly
the last attempt's error, whose text does not mention the first failure —
not an aggregate condition; and an attempt counts as the result purely on
its invocation exiting zero, no probe of the produced output being run. -/
theorem mux_fallback_counterexample :
    replace_video_audio
        (fun enc extra => if enc = "aac_at" then ⟨1, "", "errA"⟩
          else if extra = [] then ⟨1, "", "errB"⟩ else ⟨1, "", "errC"⟩)
        none "v.mp4" "n.wav" "o.mp4" =
      MuxOutcome.raised (details (mux_cmd "v.mp4" "n.wav" "o.mp4" "aac" ["-strict", "-2"])
        "" "errC") ∧
    strContains (details (mux_cmd "v.mp4" "n.wav" "o.mp4" "aac" ["-strict", "-2"])
        "" "errC") "errA" = false ∧
    replace_video_audio (fun _ _ => ⟨0, "", ""⟩) none "v2.mp4" "n2.wav" "o2.mp4" =
      MuxOutcome.success "aac_at" [] :=
  ⟨rfl, rfl, rfl⟩

/-- Claim C10: the encoder-attempt list is always non-empty and always
ends with the software `aac` encoder carrying `["-strict", "-2"]`, both
when discovery succeeds and when it fails. -/
theorem pick_mux_encoders_invariant (discovery : Option String) :
    pick_mux_encoders discovery ≠ [] ∧
      (pick_mux_encoders discovery).getLast? = some ("aac", ["-strict", "-2"]) := by
  cases discovery with
  | none => exact ⟨by decide, by decide⟩
  | some enc =>
    have e : pick_mux_encoders (some enc) =
        ((if strContains enc " aac_at " = true then [("aac_at", ([] : List String))]
            else []) ++
          (if has_aac_line enc = true then [("aac", ([] : List String))] else [])) ++
        [("aac", ["-strict", "-2"])] := rfl
    rw [e]
    exact ⟨by simp, List.getLast?_concat _⟩

end SayMySubtitles
